import Mathlib

/-!
Shallow embedding of `rexmex/metrics/ranking.py` (ranking-quality metrics).

Item identifiers are modelled by an arbitrary type with decidable equality,
rankings and relevant-item sets by `List α`, and exact rational arithmetic
(`ℚ`) stands in for IEEE floats: every value produced by the Python code on
the inputs considered here is a ratio of machine integers, and `NaN` is
modelled explicitly by the `NpValue.nan` constructor.  A raised Python/numpy
exception (e.g. `IndexError`, `ValueError`) is modelled as `none` in an
`Option` result; `some v` means the call returns normally with value `v`.
-/

set_option autoImplicit false

namespace Rexmex

/-- A numpy floating-point scalar: either a finite value or NaN. -/
inductive NpValue : Type where
  | val (q : ℚ)
  | nan
deriving DecidableEq, Repr

/-- `np.in1d(ranking, relevant)`: the Boolean mask telling, for each element
of `ranking`, whether it occurs among `relevant`. -/
def in1d {α : Type} [DecidableEq α] (ranking relevant : List α) : List Bool :=
  ranking.map (fun x => decide (x ∈ relevant))

/-- Index of the first `true` in a Boolean list (length of the list if none). -/
def firstTrueIdx : List Bool → ℕ
  | [] => 0
  | b :: bs => if b then 0 else firstTrueIdx bs + 1

/-- `np.argmax` on a Boolean array: the index of the first `true`, or `0`
when every entry is `false`; on an empty array numpy raises `ValueError`,
modelled as `none`. -/
def argmaxBool (bs : List Bool) : Option ℕ :=
  if bs.isEmpty then none
  else some (if bs.contains true then firstTrueIdx bs else 0)

/-- `np.mean` of a list of (finite) floats: NaN on an empty list. -/
def npMean (xs : List ℚ) : NpValue :=
  if xs.isEmpty then NpValue.nan else NpValue.val (xs.sum / xs.length)

/-- A python `for` loop collecting `f x` for each `x`, propagating a raised
exception (`none`) from any iteration. -/
def optList {β γ : Type} (f : β → Option γ) : List β → Option (List γ)
  | [] => some []
  | x :: xs =>
    match f x, optList f xs with
    | some y, some ys => some (y :: ys)
    | _, _ => none

/-- The finite value held by an `NpValue`, if it is not NaN. -/
def NpValue.toQ : NpValue → Option ℚ
  | NpValue.val q => some q
  | NpValue.nan => none

/-- `np.mean` over a list of numpy scalars that may include NaN:
NaN is absorbing, and the mean of an empty list is NaN. -/
def npMeanOfValues (xs : List NpValue) : NpValue :=
  match optList NpValue.toQ xs with
  | some qs => npMean qs
  | none => NpValue.nan

/-- Boolean-mask indexing `xs[mask]`: keeps the entries of `xs` whose mask
bit is `true`; numpy raises `IndexError` when the mask length differs from
the array length, modelled as `none`. -/
def boolIndex {β : Type} (xs : List β) (mask : List Bool) : Option (List β) :=
  if xs.length = mask.length then
    some ((xs.zip mask).filterMap (fun p => if p.2 then some p.1 else none))
  else none

/-- `reciprocal_rank(relevant_item, ranking)`:
`1.0 / (np.in1d(ranking, relevant_item).argmax() + 1)`. -/
def reciprocal_rank {α : Type} [DecidableEq α] (relevant_item : α)
    (ranking : List α) : Option ℚ :=
  (argmaxBool (in1d ranking [relevant_item])).map (fun (i : ℕ) => 1 / ((i : ℚ) + 1))

/-- `mean_reciprocal_rank(relevant_items, ranking)`: collects
`reciprocal_rank(item, ranking)` over `relevant_items` and takes `np.mean`. -/
def mean_reciprocal_rank {α : Type} [DecidableEq α]
    (relevant_items ranking : List α) : Option NpValue :=
  (optList (fun item => reciprocal_rank item ranking) relevant_items).map npMean

/-- `average_percision_at_k(relevant_items, ranking, k)` (sic): truncates
`ranking` to `k` when longer, masks hits with `np.in1d`, indexes
`ranks = np.arange(1, k + 1)` by the hit mask, and returns
`np.mean(np.arange(1, len(ranks[hits]) + 1) / ranks[hits])`. -/
def average_percision_at_k {α : Type} [DecidableEq α]
    (relevant_items ranking : List α) (k : ℕ) : Option NpValue :=
  let r := if ranking.length > k then ranking.take k else ranking
  let hits := in1d r relevant_items
  let ranks := List.range' 1 k
  (boolIndex ranks hits).map (fun rh =>
    npMean (((List.range' 1 rh.length).zip rh).map
      (fun p => (p.1 : ℚ) / (p.2 : ℚ))))

/-- `mean_average_percision_at_k(relevant_items, rankings, k)`: zips the two
batch sequences positionally (python `zip` stops at the shorter), computes
`average_percision_at_k` for each pair and takes `np.mean`. -/
def mean_average_percision_at_k {α : Type} [DecidableEq α]
    (relevant_items rankings : List (List α)) (k : ℕ) : Option NpValue :=
  (optList (fun p => average_percision_at_k p.1 p.2 k)
      (relevant_items.zip rankings)).map npMeanOfValues

/-- `hits_at_k(relevant_items, ranking, k)`: truncates `ranking` to `k` when
longer, counts hits with `np.in1d`, and divides by the (possibly truncated)
length; the numpy scalar division `0 / 0` on an empty ranking yields NaN. -/
def hits_at_k {α : Type} [DecidableEq α]
    (relevant_items ranking : List α) (k : ℕ) : NpValue :=
  let r := if ranking.length > k then ranking.take k else ranking
  if r.isEmpty then NpValue.nan
  else NpValue.val (((in1d r relevant_items).count true : ℚ) / (r.length : ℚ))

/-- The one-based position computed by `reciprocal_rank`'s argmax scan:
the index of the first occurrence plus one when the item occurs in the
ranking, and one otherwise (argmax of an all-false mask is `0`). -/
def rrPos {α : Type} [DecidableEq α] (item : α) (ranking : List α) : ℕ :=
  (if (in1d ranking [item]).contains true then firstTrueIdx (in1d ranking [item])
   else 0) + 1

/-- The finite value returned by `reciprocal_rank` on a non-empty ranking. -/
def rrValue {α : Type} [DecidableEq α] (item : α) (ranking : List α) : ℚ :=
  1 / (rrPos item ranking : ℚ)

/-- One-based positions (starting the count at `s`) of the entries of `r`
that belong to the relevant-item set. -/
def hpAux {α : Type} [DecidableEq α] (s : ℕ) (relevant r : List α) : List ℕ :=
  ((List.range' s r.length).zip r).filterMap
    (fun p => if p.2 ∈ relevant then some p.1 else none)

/-- Spec-side description: the one-based positions of the hits, i.e. of the
entries of `r` that belong to the relevant-item set. -/
def hit_positions {α : Type} [DecidableEq α] (relevant r : List α) : List ℕ :=
  hpAux 1 relevant r

/-- Spec-side description of the per-hit precisions: at each hit position
`p`, the number of hits up to and including position `p` divided by `p`. -/
def per_hit_precisions {α : Type} [DecidableEq α] (relevant r : List α) :
    List ℚ :=
  (hit_positions relevant r).map
    (fun p => ((r.take p).countP (fun x => decide (x ∈ relevant)) : ℚ) / (p : ℚ))

theorem in1d_length {α : Type} [DecidableEq α] (ranking relevant : List α) :
    (in1d ranking relevant).length = ranking.length := by
  simp [in1d]

theorem in1d_isEmpty {α : Type} [DecidableEq α] (ranking relevant : List α) :
    (in1d ranking relevant).isEmpty = ranking.isEmpty := by
  cases ranking <;> simp [in1d]

theorem in1d_contains_true {α : Type} [DecidableEq α]
    (ranking relevant : List α) :
    (in1d ranking relevant).contains true
      = ranking.any (fun x => decide (x ∈ relevant)) := by
  induction ranking with
  | nil => rfl
  | cons a t ih =>
    simp only [in1d, List.map_cons, List.contains_cons, Bool.true_beq,
      List.any_cons] at ih ⊢
    rw [ih]

theorem in1d_contains_true_iff {α : Type} [DecidableEq α]
    (ranking relevant : List α) :
    (in1d ranking relevant).contains true = true ↔ ∃ x ∈ ranking, x ∈ relevant := by
  rw [in1d_contains_true]
  simp [List.any_eq_true]

theorem trunc_eq_take {α : Type} (ranking : List α) (k : ℕ) :
    (if ranking.length > k then ranking.take k else ranking) = ranking.take k := by
  split
  · rfl
  · exact (List.take_of_length_le (Nat.le_of_not_lt (by assumption))).symm

theorem firstTrueIdx_lt_length {bs : List Bool}
    (h : bs.contains true = true) : firstTrueIdx bs < bs.length := by
  induction bs with
  | nil => simp [List.contains] at h
  | cons b t ih =>
    cases b with
    | true => simp [firstTrueIdx]
    | false =>
      have ht : t.contains true = true := by
        simpa [List.contains_cons] using h
      simpa [firstTrueIdx] using ih ht

theorem firstTrueIdx_in1d {α : Type} [DecidableEq α] (l : List α) (item : α) :
    ∀ i : ℕ, l.get? i = some item → item ∉ l.take i →
      firstTrueIdx (in1d l [item]) = i := by
  induction l with
  | nil => intro i h _; simp at h
  | cons a t ih =>
    intro i h hnot
    cases i with
    | zero =>
      have ha : a = item := by simpa using h
      simp [in1d, firstTrueIdx, ha]
    | succ j =>
      have hne : a ≠ item := by
        intro hcon
        exact hnot (by simp [List.take_succ_cons, hcon])
      have hj : t.get? j = some item := by simpa using h
      have hnot' : item ∉ t.take j := fun hc =>
        hnot (by simp [List.take_succ_cons, hc])
      have ih' := ih j hj hnot'
      simp only [in1d, List.mem_singleton] at ih'
      simp [in1d, firstTrueIdx, hne, ih']

theorem reciprocal_rank_eq_rrValue {α : Type} [DecidableEq α] (item : α)
    {ranking : List α} (h : ranking ≠ []) :
    reciprocal_rank item ranking = some (rrValue item ranking) := by
  have hne : (in1d ranking [item]).isEmpty = false := by
    rw [in1d_isEmpty]
    simpa [List.isEmpty_iff] using h
  by_cases hc : (in1d ranking [item]).contains true = true
  · simp [reciprocal_rank, argmaxBool, hne, hc, rrValue, rrPos, Nat.cast_add,
      Nat.cast_one]
  · simp [reciprocal_rank, argmaxBool, hne, hc, rrValue, rrPos]

theorem rrPos_one_le {α : Type} [DecidableEq α] (item : α) (ranking : List α) :
    1 ≤ rrPos item ranking := by
  simp [rrPos]

theorem rrPos_le_length {α : Type} [DecidableEq α] (item : α)
    {ranking : List α} (h : ranking ≠ []) :
    rrPos item ranking ≤ ranking.length := by
  unfold rrPos
  split
  · have := firstTrueIdx_lt_length (by assumption)
    rw [in1d_length] at this
    omega
  · have : 0 < ranking.length := List.length_pos.mpr h
    omega

theorem hpAux_cons {α : Type} [DecidableEq α] (relevant : List α) (a : α)
    (t : List α) (s : ℕ) :
    hpAux s relevant (a :: t)
      = if a ∈ relevant then s :: hpAux (s + 1) relevant t
        else hpAux (s + 1) relevant t := by
  simp only [hpAux, List.length_cons, List.range'_succ, List.zip_cons_cons,
    List.filterMap_cons]
  by_cases ha : a ∈ relevant <;> simp [ha]

theorem hpAux_shift {α : Type} [DecidableEq α] (relevant r : List α) :
    ∀ s : ℕ, hpAux (s + 1) relevant r = (hpAux s relevant r).map (fun p => p + 1) := by
  induction r with
  | nil => intro s; rfl
  | cons a t ih =>
    intro s
    rw [hpAux_cons, hpAux_cons]
    by_cases ha : a ∈ relevant <;> simp [ha, ih (s + 1)]

theorem hpAux_length {α : Type} [DecidableEq α] (relevant r : List α) :
    ∀ s : ℕ, (hpAux s relevant r).length
      = r.countP (fun x => decide (x ∈ relevant)) := by
  induction r with
  | nil => intro s; rfl
  | cons a t ih =>
    intro s
    rw [hpAux_cons]
    by_cases ha : a ∈ relevant <;> simp [ha, ih (s + 1), List.countP_cons]

theorem range'_map_succ (s n : ℕ) :
    (List.range' s n).map (fun p => p + 1) = List.range' (s + 1) n := by
  have h := List.map_add_range' 1 s n 1
  simpa [Nat.add_comm] using h

theorem hit_positions_counts {α : Type} [DecidableEq α] (relevant : List α) :
    ∀ r : List α,
      (hit_positions relevant r).map
          (fun p => (r.take p).countP (fun x => decide (x ∈ relevant)))
        = List.range' 1 (hit_positions relevant r).length := by
  intro r
  induction r with
  | nil => rfl
  | cons a t ih =>
    have hshift := hpAux_shift relevant t 1
    by_cases ha : a ∈ relevant
    · rw [hit_positions, hpAux_cons, if_pos ha, hshift]
      rw [hit_positions] at ih
      simp only [List.map_cons, List.map_map, List.length_cons, List.length_map]
      rw [List.range'_succ]
      congr 1
      · simp [List.countP_cons, ha]
      · have h1 : ((fun p => ((a :: t).take p).countP
              (fun x => decide (x ∈ relevant))) ∘ fun p => p + 1)
            = (fun c => c + 1)
              ∘ (fun p => (t.take p).countP (fun x => decide (x ∈ relevant))) := by
          funext p
          simp [List.take_succ_cons, List.countP_cons, ha]
        rw [h1, ← List.map_map, ih, range'_map_succ]
    · rw [hit_positions, hpAux_cons, if_neg ha, hshift]
      rw [hit_positions] at ih
      simp only [List.map_map, List.length_map]
      have h1 : ((fun p => ((a :: t).take p).countP
            (fun x => decide (x ∈ relevant))) ∘ fun p => p + 1)
          = fun p => (t.take p).countP (fun x => decide (x ∈ relevant)) := by
        funext p
        simp [List.take_succ_cons, List.countP_cons, ha]
      rw [h1, ih]

theorem boolIndex_in1d {α : Type} [DecidableEq α] (relevant : List α)
    {r : List α} {k : ℕ} (h : r.length = k) :
    boolIndex (List.range' 1 k) (in1d r relevant)
      = some (hit_positions relevant r) := by
  subst h
  have hlen : (List.range' 1 r.length).length = (in1d r relevant).length := by
    rw [List.length_range', in1d_length]
  unfold boolIndex
  rw [if_pos hlen]
  refine congrArg some ?_
  rw [hit_positions, hpAux, in1d, List.zip_map_right, List.filterMap_map]
  congr 1
  funext p
  by_cases hp : p.2 ∈ relevant <;> simp [hp, Prod.map]

theorem npMean_of_ne_nil {xs : List ℚ} (h : xs ≠ []) :
    npMean xs = NpValue.val (xs.sum / xs.length) := by
  simp [npMean, List.isEmpty_iff, h]

theorem optList_map_of_forall_some {β γ : Type} {f : β → Option γ}
    {g : β → γ} (l : List β) (h : ∀ x ∈ l, f x = some (g x)) :
    optList f l = some (l.map g) := by
  induction l with
  | nil => rfl
  | cons x xs ih =>
    have hx := h x (by simp)
    have hxs := ih (fun y hy => h y (by simp [hy]))
    simp [optList, hx, hxs]

theorem optList_toQ_of_nan_mem {xs : List NpValue} (h : NpValue.nan ∈ xs) :
    optList NpValue.toQ xs = none := by
  induction xs with
  | nil => simp at h
  | cons x t ih =>
    rcases List.mem_cons.mp h with h1 | h2
    · cases h1
      cases hrest : optList NpValue.toQ t <;> simp [optList, NpValue.toQ, hrest]
    · cases hx : NpValue.toQ x <;> simp [optList, hx, ih h2]

theorem npMeanOfValues_of_nan_mem {xs : List NpValue} (h : NpValue.nan ∈ xs) :
    npMeanOfValues xs = NpValue.nan := by
  unfold npMeanOfValues
  rw [optList_toQ_of_nan_mem h]

theorem zip_take_min {β γ : Type} :
    ∀ (l1 : List β) (l2 : List γ),
      l1.zip l2 = (l1.take (min l1.length l2.length)).zip
        (l2.take (min l1.length l2.length)) := by
  intro l1
  induction l1 with
  | nil => intro l2; simp
  | cons a t ih =>
    intro l2
    cases l2 with
    | nil => simp
    | cons b u =>
      simp only [List.length_cons, Nat.succ_min_succ, List.take_succ_cons,
        List.zip_cons_cons]
      rw [ih u]

theorem per_hit_eq {α : Type} [DecidableEq α] (relevant r : List α) :
    ((List.range' 1 (hit_positions relevant r).length).zip
        (hit_positions relevant r)).map (fun p => (p.1 : ℚ) / (p.2 : ℚ))
      = per_hit_precisions relevant r := by
  have h := List.zip_map'
    (fun p => (r.take p).countP (fun x => decide (x ∈ relevant))) id
    (hit_positions relevant r)
  rw [List.map_id] at h
  rw [← hit_positions_counts relevant r, h, List.map_map]
  rfl

theorem in1d_count_true {α : Type} [DecidableEq α] (r relevant : List α) :
    (in1d r relevant).count true
      = r.countP (fun x => decide (x ∈ relevant)) := by
  rw [in1d, List.count_eq_countP, List.countP_map]
  congr 1
  funext x
  cases hx : decide (x ∈ relevant) <;> simp [Function.comp, hx]

/-- C1: the spec claims that for a ranking strictly shorter than `k` both
`average_percision_at_k` and `hits_at_k` use the full ranking, return the
same result as with `k` equal to the ranking's length, and raise no error.
`hits_at_k` indeed does, but `average_percision_at_k` builds
`ranks = np.arange(1, k + 1)` of length `k` and indexes it with a Boolean
hit mask of the ranking's (shorter) length, which makes numpy raise an
`IndexError` (`none` in this embedding): at `relevant_items = [1]`,
`ranking = [1, 2]`, `k = 3` the call fails while `k = 2` returns `1.0`. -/
theorem claim_C1 :
    average_percision_at_k ([1] : List ℤ) [1, 2] 3 = none
      ∧ average_percision_at_k ([1] : List ℤ) [1, 2] 2
          = some (NpValue.val 1)
      ∧ hits_at_k ([1] : List ℤ) [1, 2] 3 = hits_at_k ([1] : List ℤ) [1, 2] 2
      ∧ (∀ (relevant ranking : List ℤ) (k : ℕ), ranking.length < k →
          hits_at_k relevant ranking k = hits_at_k relevant ranking ranking.length) := by
  refine ⟨rfl, ?_, rfl, ?_⟩
  · simp [average_percision_at_k, in1d, boolIndex, npMean, List.range']
  · intro relevant ranking k hk
    have h1 : ¬(ranking.length > k) := by omega
    have h2 : ¬(ranking.length > ranking.length) := by omega
    simp only [hits_at_k, h1, h2, if_false]

/-- C2: for an item occurring in the ranking, `reciprocal_rank` returns
`1 / p` where `p` is the one-based position of the item's first occurrence
(the zero-based first-occurrence index `i` plus one). -/
theorem claim_C2 {α : Type} [DecidableEq α] (ranking : List α) (item : α)
    (i : ℕ) (h1 : ranking.get? i = some item) (h2 : item ∉ ranking.take i) :
    reciprocal_rank item ranking = some (1 / ((i : ℚ) + 1)) := by
  have hmem : item ∈ ranking := List.get?_mem h1
  have hne : ranking ≠ [] := by rintro rfl; simp at h1
  have hcontains : (in1d ranking [item]).contains true = true :=
    (in1d_contains_true_iff ranking [item]).mpr ⟨item, hmem, by simp⟩
  have hidx := firstTrueIdx_in1d ranking item i h1 h2
  have hisE : (in1d ranking [item]).isEmpty = false := by
    rw [in1d_isEmpty]
    simpa [List.isEmpty_iff] using hne
  simp only [reciprocal_rank, argmaxBool, hisE, Bool.false_eq_true, if_false,
    hcontains, eq_self_iff_true, if_true, hidx, Option.map_some']

/-- C2 witness: `reciprocal_rank(3, [5, 3, 1])` is `0.5` (first occurrence
of `3` at one-based position `2`). -/
theorem claim_C2_witness :
    reciprocal_rank (3 : ℤ) [5, 3, 1] = some (1 / 2) := by
  have h := claim_C2 ([5, 3, 1] : List ℤ) 3 1 (by rfl) (by decide)
  rw [h]
  norm_num

/-- C3: for an item absent from a non-empty ranking, `reciprocal_rank`
returns exactly `1.0` without raising: the all-false membership mask makes
`argmax` default to index `0`. -/
theorem claim_C3 {α : Type} [DecidableEq α] {ranking : List α} (item : α)
    (h1 : ranking ≠ []) (h2 : item ∉ ranking) :
    reciprocal_rank item ranking = some 1 := by
  have hisE : (in1d ranking [item]).isEmpty = false := by
    rw [in1d_isEmpty]
    simpa [List.isEmpty_iff] using h1
  have hcontains : (in1d ranking [item]).contains true = false := by
    refine Bool.eq_false_iff.mpr fun hc => ?_
    rcases (in1d_contains_true_iff ranking [item]).mp hc with ⟨x, hx, hx2⟩
    have hxi : x = item := by simpa using hx2
    exact h2 (hxi ▸ hx)
  simp only [reciprocal_rank, argmaxBool, hisE, Bool.false_eq_true, if_false,
    hcontains, Option.map_some']
  norm_num

/-- C3 witness: the absent item `7` in `[5, 3, 1]` yields `1.0`. -/
theorem claim_C3_witness :
    reciprocal_rank (7 : ℤ) [5, 3, 1] = some 1 :=
  claim_C3 (7 : ℤ) (by decide) (by decide)

/-- C4: for a ranking of length at least `k` (`k` positive) with at least
one hit among the first `k` entries, `average_percision_at_k` truncates the
ranking to its first `k` elements and returns the mean, over the hit
positions, of (number of hits up to and including that position) divided by
the one-based position. -/
theorem claim_C4 {α : Type} [DecidableEq α] (relevant ranking : List α)
    (k : ℕ) (hk : 0 < k) (hlen : k ≤ ranking.length)
    (hhit : ∃ x ∈ ranking.take k, x ∈ relevant) :
    average_percision_at_k relevant ranking k
      = some (NpValue.val
          ((per_hit_precisions relevant (ranking.take k)).sum
            / ((per_hit_precisions relevant (ranking.take k)).length : ℚ))) := by
  have htake : (ranking.take k).length = k := by
    rw [List.length_take]
    omega
  have hcount : 0 < (ranking.take k).countP (fun x => decide (x ∈ relevant)) := by
    rcases hhit with ⟨x, hx1, hx2⟩
    exact List.countP_pos_iff.mpr ⟨x, hx1, by simpa using hx2⟩
  have hne : per_hit_precisions relevant (ranking.take k) ≠ [] := by
    intro hcon
    have hlen0 := congrArg List.length hcon
    simp only [per_hit_precisions, List.length_map, hit_positions,
      hpAux_length, List.length_nil] at hlen0
    omega
  simp only [average_percision_at_k, trunc_eq_take]
  rw [boolIndex_in1d relevant htake, Option.map_some', per_hit_eq,
    npMean_of_ne_nil hne]

/-- C4 witness: `average_percision_at_k([1, 2], [3, 2, 1], k = 3)` has hits
at positions 2 and 3, precisions `1/2` and `2/3`, mean `7/12`. -/
theorem claim_C4_witness :
    average_percision_at_k ([1, 2] : List ℤ) [3, 2, 1] 3
      = some (NpValue.val (7 / 12)) := by
  have h := claim_C4 ([1, 2] : List ℤ) [3, 2, 1] 3 (by decide) (by decide)
    (by decide)
  rw [h]
  norm_num [per_hit_precisions, hit_positions, hpAux, List.range',
    List.filterMap_cons, List.countP_cons, List.take_succ_cons]

/-- C5: when the ranking has at least `k` elements and none of its first
`k` entries is relevant, `average_percision_at_k` returns NaN (the mean of
an empty sequence) without raising. -/
theorem claim_C5 {α : Type} [DecidableEq α] (relevant ranking : List α)
    (k : ℕ) (hlen : k ≤ ranking.length)
    (hmiss : ∀ x ∈ ranking.take k, x ∉ relevant) :
    average_percision_at_k relevant ranking k = some NpValue.nan := by
  have htake : (ranking.take k).length = k := by
    rw [List.length_take]
    omega
  have hp_nil : hit_positions relevant (ranking.take k) = [] := by
    refine List.length_eq_zero.mp ?_
    rw [hit_positions, hpAux_length]
    refine List.countP_eq_zero.mpr fun x hx => ?_
    simpa using hmiss x hx
  simp only [average_percision_at_k, trunc_eq_take]
  rw [boolIndex_in1d relevant htake, Option.map_some', hp_nil]
  rfl

/-- C5 witness: no element of `[2, 3]` is in `[1]`, so AP@2 is NaN. -/
theorem claim_C5_witness :
    average_percision_at_k ([1] : List ℤ) [2, 3] 2 = some NpValue.nan :=
  claim_C5 ([1] : List ℤ) [2, 3] 2 (by decide) (by decide)

/-- C6: for a positive `k` and a non-empty ranking, `hits_at_k` returns the
number of hits within the first `k` entries divided by the length of the
possibly-truncated ranking (not by `k`), and the result lies in [0, 1]. -/
theorem claim_C6 {α : Type} [DecidableEq α] (relevant ranking : List α)
    (k : ℕ) (hk : 0 < k) (hne : ranking ≠ []) :
    hits_at_k relevant ranking k
        = NpValue.val
            (((ranking.take k).countP (fun x => decide (x ∈ relevant)) : ℚ)
              / ((ranking.take k).length : ℚ))
      ∧ (0 : ℚ) ≤ ((ranking.take k).countP (fun x => decide (x ∈ relevant)) : ℚ)
          / ((ranking.take k).length : ℚ)
      ∧ ((ranking.take k).countP (fun x => decide (x ∈ relevant)) : ℚ)
          / ((ranking.take k).length : ℚ) ≤ 1 := by
  have hlen : 0 < (ranking.take k).length := by
    rw [List.length_take]
    have := List.length_pos.mpr hne
    omega
  have hEmpty : (ranking.take k).isEmpty = false := by
    rw [Bool.eq_false_iff, ne_eq, List.isEmpty_iff]
    intro hcon
    rw [hcon] at hlen
    simp at hlen
  refine ⟨?_, ?_, ?_⟩
  · simp only [hits_at_k, trunc_eq_take, hEmpty, Bool.false_eq_true, if_false,
      in1d_count_true]
  · positivity
  · rw [div_le_one (by exact_mod_cast hlen)]
    exact_mod_cast List.countP_le_length _

/-- C6 witness: `hits_at_k([1, 2], [1, 5, 2, 9], k = 2)` truncates to
`[1, 5]` and returns `1 / 2`. -/
theorem claim_C6_witness :
    hits_at_k ([1, 2] : List ℤ) [1, 5, 2, 9] 2 = NpValue.val (1 / 2) := by
  have h := (claim_C6 ([1, 2] : List ℤ) [1, 5, 2, 9] 2 (by decide) (by decide)).1
  rw [h]
  norm_num [List.take_succ_cons, List.countP_cons]

/-- C7: `mean_average_percision_at_k` pairs the batch sequences positionally
(python `zip` silently stops at the shorter sequence, so the result only
depends on the first `min` -many pairs), returns the `np.mean` of the
per-pair AP@K values when every pair returns, and that mean is NaN as soon
as one pair's AP@K is NaN. -/
theorem claim_C7 {α : Type} [DecidableEq α] :
    (∀ (rels ranks : List (List α)) (k : ℕ),
        mean_average_percision_at_k rels ranks k
          = mean_average_percision_at_k
              (rels.take (min rels.length ranks.length))
              (ranks.take (min rels.length ranks.length)) k)
      ∧ (∀ (rels ranks : List (List α)) (k : ℕ) (aps : List NpValue),
          optList (fun p => average_percision_at_k p.1 p.2 k)
              (rels.zip ranks) = some aps →
            mean_average_percision_at_k rels ranks k
              = some (npMeanOfValues aps))
      ∧ (∀ (rels ranks : List (List α)) (k : ℕ) (aps : List NpValue),
          optList (fun p => average_percision_at_k p.1 p.2 k)
              (rels.zip ranks) = some aps → NpValue.nan ∈ aps →
            mean_average_percision_at_k rels ranks k = some NpValue.nan) := by
  refine ⟨?_, ?_, ?_⟩
  · intro rels ranks k
    unfold mean_average_percision_at_k
    rw [← zip_take_min]
  · intro rels ranks k aps h
    unfold mean_average_percision_at_k
    rw [h, Option.map_some']
  · intro rels ranks k aps h hnan
    unfold mean_average_percision_at_k
    rw [h, Option.map_some', npMeanOfValues_of_nan_mem hnan]

/-- C7 witness: the documented example evaluates to the mean of `7/12` and
`5/6`, i.e. `17/24 ≈ 0.70833`. -/
theorem claim_C7_witness :
    mean_average_percision_at_k ([[1, 2], [2, 3]] : List (List ℤ))
        [[3, 2, 1], [2, 1, 3]] 3 = some (NpValue.val (17 / 24)) := by
  have hlist : optList
      (fun p => average_percision_at_k p.1 p.2 3)
      (([[1, 2], [2, 3]] : List (List ℤ)).zip [[3, 2, 1], [2, 1, 3]])
      = some [NpValue.val (7 / 12), NpValue.val (5 / 6)] := by
    simp [optList, average_percision_at_k, in1d, boolIndex, npMean,
      List.range']
    norm_num
  have h := (@claim_C7 ℤ _).2.1 [[1, 2], [2, 3]] [[3, 2, 1], [2, 1, 3]] 3
    [NpValue.val (7 / 12), NpValue.val (5 / 6)] hlist
  rw [h]
  norm_num [npMeanOfValues, optList, NpValue.toQ, npMean]

/-- C8: for non-empty relevant items and a non-empty ranking,
`mean_reciprocal_rank` is the arithmetic mean of `reciprocal_rank` of each
relevant item against the identical ranking; over a singleton set it equals
`reciprocal_rank` of that single item. -/
theorem claim_C8 {α : Type} [DecidableEq α] (relevant ranking : List α)
    (hrel : relevant ≠ []) (hrank : ranking ≠ []) :
    mean_reciprocal_rank relevant ranking
        = some (NpValue.val
            ((relevant.map (fun item => rrValue item ranking)).sum
              / (relevant.length : ℚ)))
      ∧ (∀ item : α, reciprocal_rank item ranking = some (rrValue item ranking))
      ∧ (∀ item : α, mean_reciprocal_rank [item] ranking
          = some (NpValue.val (rrValue item ranking))) := by
  have hall : ∀ item : α,
      reciprocal_rank item ranking = some (rrValue item ranking) :=
    fun item => reciprocal_rank_eq_rrValue item hrank
  refine ⟨?_, hall, ?_⟩
  · unfold mean_reciprocal_rank
    rw [optList_map_of_forall_some relevant (fun x _ => hall x),
      Option.map_some', npMean_of_ne_nil (by simpa using hrel),
      List.length_map]
  · intro item
    unfold mean_reciprocal_rank
    rw [optList_map_of_forall_some [item] (fun x _ => hall x),
      Option.map_some', npMean_of_ne_nil (by simp)]
    simp

/-- C8 witness: over the singleton relevant set `[2]` and ranking `[5, 2]`,
MRR equals the reciprocal rank `1/2` of the single item. -/
theorem claim_C8_witness :
    mean_reciprocal_rank ([2] : List ℤ) [5, 2] = some (NpValue.val (1 / 2)) := by
  have h := (claim_C8 ([2] : List ℤ) [5, 2] (by decide) (by decide)).2.2 2
  rw [h]
  norm_num [rrValue, rrPos, in1d, firstTrueIdx]

/-- C9: with an empty relevant-item set, `mean_reciprocal_rank` computes
`np.mean` of an empty list, which is NaN, for every ranking; the bad shape
propagates as a numeric error value instead of being caught. -/
theorem claim_C9 {α : Type} [DecidableEq α] (ranking : List α) :
    mean_reciprocal_rank ([] : List α) ranking = some NpValue.nan := rfl

/-- C10: on a non-empty ranking of length `n`, `reciprocal_rank` always
returns `1/m` for some integer `1 ≤ m ≤ n` — so the value lies in
`[1/n, 1]` and is never `0`, and an absent item is indistinguishable from
one ranked first. -/
theorem claim_C10 {α : Type} [DecidableEq α] (item : α) {ranking : List α}
    (h : ranking ≠ []) :
    ∃ m : ℕ, 1 ≤ m ∧ m ≤ ranking.length
      ∧ reciprocal_rank item ranking = some (1 / (m : ℚ))
      ∧ (1 : ℚ) / (ranking.length : ℚ) ≤ 1 / (m : ℚ)
      ∧ 1 / (m : ℚ) ≤ 1 ∧ 1 / (m : ℚ) ≠ 0 := by
  have h1 := rrPos_one_le item ranking
  have h2 := rrPos_le_length item h
  have hm0 : (0 : ℚ) < (rrPos item ranking : ℚ) := by exact_mod_cast h1
  refine ⟨rrPos item ranking, h1, h2, ?_, ?_, ?_, ?_⟩
  · rw [reciprocal_rank_eq_rrValue item h]
    exact rfl
  · exact one_div_le_one_div_of_le hm0 (by exact_mod_cast h2)
  · rw [div_le_one hm0]
    exact_mod_cast h1
  · exact one_div_ne_zero (ne_of_gt hm0)

/-- C10 witness: instantiated at item `3` and ranking `[5, 3, 1]`. -/
theorem claim_C10_witness :
    ∃ m : ℕ, 1 ≤ m ∧ m ≤ ([5, 3, 1] : List ℤ).length
      ∧ reciprocal_rank (3 : ℤ) [5, 3, 1] = some (1 / (m : ℚ))
      ∧ (1 : ℚ) / ((([5, 3, 1] : List ℤ).length : ℕ) : ℚ) ≤ 1 / (m : ℚ)
      ∧ 1 / (m : ℚ) ≤ 1 ∧ 1 / (m : ℚ) ≠ 0 :=
  claim_C10 (3 : ℤ) (by decide)

end Rexmex
